import Mathlib

/-!
Shallow embedding of the bot_tp_back conversation backend:
the `ConversationManager` session store (src/services/conversationManager.js),
the `PromptBuilder` and `SYSTEM_PROMPTS` templates (src/prompts/promptTemplates.js),
and the `POST /api/chat` turn handler (src/server.js).

Modelling conventions:
* Wall-clock time (`new Date()`, `Date.now()`, ISO timestamp strings) is
  modelled as a `Nat` number of milliseconds, threaded explicitly into every
  operation that reads the clock.
* A JavaScript `Map` is modelled as an insertion-ordered association list
  `List (String × _)`; `Map.get` is first-match lookup, `Map.set` updates the
  entry in place when the key is present and appends otherwise, `Map.delete`
  removes the entry.  Reachable stores have pairwise-distinct keys.
* Metadata objects are modelled as insertion-ordered association lists
  `List (String × V)` over an opaque payload type `V`; object spread
  `{...old, ...partial}` keeps old keys in place (values overridden by
  `partial` when present) and appends the genuinely new keys of `partial`
  in order.
-/

namespace BotTp

/-- Message roles: `'system' | 'user' | 'assistant'`. -/
inductive Role where
  | system
  | user
  | assistant
deriving DecidableEq, Repr

/-- One entry of `conversation.messages`. -/
structure Message where
  role : Role
  content : String
  timestamp : Nat
deriving DecidableEq, Repr

/-- A conversation record as built by `createConversation`. -/
structure Conversation (V : Type) where
  id : String
  messages : List Message
  createdAt : Nat
  lastActivity : Nat
  metadata : List (String × V)
deriving DecidableEq, Repr

/-- The `this.conversations` map of `ConversationManager`. -/
abbrev Store (V : Type) := List (String × Conversation V)

/-- `this.maxHistoryLength = 20`. -/
def maxHistoryLength : Nat := 20

/-- `Map.get`: first entry with the key, if any. -/
def mapGet (store : Store V) (k : String) : Option (Conversation V) :=
  store.lookup k

/-- `Map.set`: overwrite in place when the key exists, append otherwise. -/
def mapSet (store : Store V) (k : String) (v : Conversation V) : Store V :=
  if store.any (fun p => p.1 = k) then
    store.map (fun p => if p.1 = k then (k, v) else p)
  else
    store ++ [(k, v)]

/-- `Map.delete`: drop the entry with the key. -/
def mapDelete (store : Store V) (k : String) : Store V :=
  store.filter (fun p => p.1 ≠ k)

/-! ### Prompt templates (src/prompts/promptTemplates.js) -/

/-- The closing paragraph shared verbatim by all three templates. -/
def promptSharedTail : String :=
  "Si ils te demandent la réponse, commence par une pique humoristique (pas \nméchante, mais tu peux te moquer gentiment), puis enchaîne en les incitant à réfléchir d'eux-mêmes.\nPar contre, si ils te demandent de la doc - l'intitulé d'une focntion ou des rensiegnements\nsur une fonction ou la manière de l'appeler, tu dois la leur donner !"

/-- `SYSTEM_PROMPTS.TP_ASSISTANT`. -/
def TP_ASSISTANT : String :=
  "Tu es un assistant pédagogique pour aider les étudiants pendant leurs travaux pratiques (TP).\n\nTon rôle est de :\n- Guider les étudiants sans donner directement la solution complète\n- Poser des questions pour les faire réfléchir\n- Expliquer les concepts de manière claire et pédagogique\n- Encourager l'apprentissage autonome\n- Détecter les erreurs courantes et suggérer des pistes de réflexion\n\nTu NE dois PAS :\n- Donner le code complet de la solution\n- Faire le travail à la place de l'étudiant\n- Être condescendant ou décourageant\n\nTon ton doit être encourageant, patient et bienveillant.\n\n" ++ promptSharedTail

/-- `SYSTEM_PROMPTS.PROGRAMMING_TUTOR`. -/
def PROGRAMMING_TUTOR : String :=
  "Tu es un tuteur expert en programmation qui aide les étudiants à comprendre les concepts de code.\n\nQuand un étudiant pose une question :\n1. Identifie le concept sous-jacent\n2. Explique le concept avec des exemples simples\n3. Guide-le vers la solution avec des questions\n4. Propose des ressources pour approfondir\n\nAdapte ton niveau d'explication selon la complexité de la question.\n" ++ promptSharedTail

/-- `SYSTEM_PROMPTS.DEBUG_HELPER`. -/
def DEBUG_HELPER : String :=
  "Tu es un assistant de débogage qui aide les étudiants à résoudre leurs erreurs.\n\nMéthode :\n1. Demande à l'étudiant de décrire l'erreur et le comportement attendu\n2. Aide-le à identifier la source du problème\n3. Suggère des méthodes de débogage (console.log, breakpoints, etc.)\n4. Guide-le vers la compréhension de l'erreur\n\nNe corrige pas directement le code, mais aide l'étudiant à comprendre pourquoi ça ne fonctionne pas.\n" ++ promptSharedTail

/-- `SYSTEM_PROMPTS[promptType]`: the object has exactly the three keys. -/
def SYSTEM_PROMPTS (promptType : String) : Option String :=
  if promptType = "TP_ASSISTANT" then some TP_ASSISTANT
  else if promptType = "PROGRAMMING_TUTOR" then some PROGRAMMING_TUTOR
  else if promptType = "DEBUG_HELPER" then some DEBUG_HELPER
  else none

/-- `SYSTEM_PROMPTS[promptType] || SYSTEM_PROMPTS.TP_ASSISTANT`
(server.js, POST /api/sessions). -/
def basePromptFor (promptType : String) : String :=
  (SYSTEM_PROMPTS promptType).getD TP_ASSISTANT

/-- The optional context record handed to `PromptBuilder.buildSystemPrompt`.
A JavaScript field that is `undefined`, `null` or the empty string is falsy
and skipped by the builder; `none` models an absent field and `some ""` a
present-but-falsy one. -/
structure PromptContext where
  tpSubject : Option String
  tpObjectives : Option String
  studentLevel : Option String
  constraints : Option String
deriving DecidableEq, Repr

/-- JavaScript truthiness of an optional string field
(`undefined`, `null` and `""` are falsy). -/
def truthy : Option String → Bool
  | none => false
  | some s => !s.isEmpty

/-- `PromptBuilder.buildSystemPrompt(basePrompt, context)`: appends, in fixed
order, one labelled clause per truthy context field. -/
def buildSystemPrompt (basePrompt : String) (context : PromptContext) : String :=
  let prompt := basePrompt
  let prompt := match context.tpSubject with
    | some s => if s.isEmpty then prompt else prompt ++ "\n\nSujet du TP : " ++ s
    | none => prompt
  let prompt := match context.tpObjectives with
    | some s => if s.isEmpty then prompt else prompt ++ "\n\nObjectifs pédagogiques : " ++ s
    | none => prompt
  let prompt := match context.studentLevel with
    | some s => if s.isEmpty then prompt else prompt ++ "\n\nNiveau de l'étudiant : " ++ s
    | none => prompt
  let prompt := match context.constraints with
    | some s => if s.isEmpty then prompt else prompt ++ "\n\nContraintes particulières : " ++ s
    | none => prompt
  prompt

/-! ### ConversationManager (src/services/conversationManager.js) -/

/-- `createConversation(sessionId, systemPrompt)`: builds the fresh record and
unconditionally `Map.set`s it; returns the record and the updated store. -/
def createConversation (now : Nat) (sessionId systemPrompt : String)
    (store : Store V) : Conversation V × Store V :=
  let conversation : Conversation V :=
    { id := sessionId
      messages := [{ role := Role.system, content := systemPrompt, timestamp := now }]
      createdAt := now
      lastActivity := now
      metadata := [] }
  (conversation, mapSet store sessionId conversation)

/-- `getConversation(sessionId)`: lookup, `null` for a missing session. -/
def getConversation (store : Store V) (sessionId : String) : Option (Conversation V) :=
  mapGet store sessionId

/-- The trim of `addMessage`: when the pushed list exceeds
`maxHistoryLength`, keep `[messages[0], ...messages.slice(-maxHistoryLength + 1)]`.
`slice(-19)` on a list of length `L` is `drop (L - 19)`, and `take 1` is
`[messages[0]]` (the pushed list is never empty). -/
def trimMessages (pushed : List Message) : List Message :=
  if pushed.length > maxHistoryLength then
    pushed.take 1 ++ pushed.drop (pushed.length - (maxHistoryLength - 1))
  else
    pushed

/-- `addMessage(sessionId, role, content)`: `false` and no change when the
session is absent; otherwise push a timestamped message, refresh
`lastActivity`, and trim the history. -/
def addMessage (now : Nat) (sessionId : String) (role : Role) (content : String)
    (store : Store V) : Bool × Store V :=
  match mapGet store sessionId with
  | none => (false, store)
  | some conversation =>
    let pushed := conversation.messages ++
      [{ role := role, content := content, timestamp := now }]
    (true, mapSet store sessionId
      { conversation with messages := trimMessages pushed, lastActivity := now })

/-- `getMessages(sessionId)`: the history projected to `(role, content)` pairs
for the completion call; `[]` when the session is absent. -/
def getMessages (store : Store V) (sessionId : String) : List (Role × String) :=
  match mapGet store sessionId with
  | none => []
  | some conversation => conversation.messages.map (fun m => (m.role, m.content))

/-- `{...conversation.metadata, ...metadata}`: old keys stay in place, with
values overridden by `metadata` where it has the key; keys of `metadata` not
already present are appended in order. -/
def mergeMeta (old incoming : List (String × V)) : List (String × V) :=
  old.map (fun p =>
    match incoming.lookup p.1 with
    | some v => (p.1, v)
    | none => p) ++
  incoming.filter (fun q => !old.any (fun p => p.1 = q.1))

/-- `updateMetadata(sessionId, metadata)`: shallow merge into the session's
metadata; `false` and no change when the session is absent. -/
def updateMetadata (sessionId : String) (metadata : List (String × V))
    (store : Store V) : Bool × Store V :=
  match mapGet store sessionId with
  | none => (false, store)
  | some conversation =>
    (true, mapSet store sessionId
      { conversation with metadata := mergeMeta conversation.metadata metadata })

/-- `deleteConversation(sessionId)`: `Map.delete`, reporting whether an entry
existed. -/
def deleteConversation (sessionId : String) (store : Store V) : Bool × Store V :=
  (store.any (fun p => p.1 = sessionId), mapDelete store sessionId)

/-- `resetConversation(sessionId)`: keep only `messages[0]` (`take 1` equals
`[messages[0]]`, the history being never empty) and refresh `lastActivity`;
metadata and `createdAt` are untouched. -/
def resetConversation (now : Nat) (sessionId : String) (store : Store V) :
    Bool × Store V :=
  match mapGet store sessionId with
  | none => (false, store)
  | some conversation =>
    (true, mapSet store sessionId
      { conversation with messages := conversation.messages.take 1, lastActivity := now })

/-- `(now - lastActivity) / (1000 * 60)`: the JavaScript real-number division
is modelled in `ℚ`. -/
def inactiveMinutes (now : Nat) (conversation : Conversation V) : ℚ :=
  ((now : ℚ) - (conversation.lastActivity : ℚ)) / (1000 * 60)

/-- `cleanupInactive(maxInactiveMinutes = 60)`: walk the entries, delete every
session strictly more than `maxInactiveMinutes` inactive, count the
deletions. -/
def cleanupInactive (now : Nat) (maxInactiveMinutes : ℚ) (store : Store V) :
    Store V × Nat :=
  store.foldl (fun acc p =>
    if inactiveMinutes now p.2 > maxInactiveMinutes then
      (mapDelete acc.1 p.1, acc.2 + 1)
    else acc) (store, 0)

/-- The record returned by `getStats`. -/
structure Stats (V : Type) where
  totalMessages : Nat
  userMessages : Nat
  assistantMessages : Nat
  createdAt : Nat
  lastActivity : Nat
  metadata : List (String × V)
deriving DecidableEq, Repr

/-- `getStats(sessionId)`: role counts over the whole history and
`totalMessages = messages.length - 1` (the system message is excluded);
`null` when the session is absent. -/
def getStats (store : Store V) (sessionId : String) : Option (Stats V) :=
  match mapGet store sessionId with
  | none => none
  | some conversation =>
    some
      { totalMessages := conversation.messages.length - 1
        userMessages :=
          (conversation.messages.filter (fun m => m.role = Role.user)).length
        assistantMessages :=
          (conversation.messages.filter (fun m => m.role = Role.assistant)).length
        createdAt := conversation.createdAt
        lastActivity := conversation.lastActivity
        metadata := conversation.metadata }

/-! ### The `POST /api/chat` handler (src/server.js)

The handler runs synchronously up to the `await openaiService.chat(...)`
suspension point and synchronously after it.  It is modelled in two
phases around that single suspension, so that store mutations by other
interleaved requests between the phases can be expressed. -/

/-- The completion boundary's result: `{success:true, message}` or
`{success:false, error}` (token usage and model metadata are passed through
to the HTTP response untouched and play no role in the store). -/
inductive CompletionResult where
  | ok (message : String)
  | err (error : String)
deriving DecidableEq, Repr

/-- The handler's observable outcome, keyed by the HTTP status it answers
with. -/
inductive ChatOutcome where
  | badRequest
  | notFound
  | notConfigured
  | upstreamError (details : String)
  | ok (response : String)
deriving DecidableEq, Repr

/-- State of the handler at the suspension point: either it already answered
(store as left behind), or it is awaiting the completion call made with the
given snapshot. -/
inductive ChatPhase1Result (V : Type) where
  | early (outcome : ChatOutcome) (store : Store V)
  | suspended (sessionId : String) (snapshot : List (Role × String)) (store : Store V)
deriving DecidableEq, Repr

/-- The synchronous prefix of the handler: validate the two required fields
(`!sessionId || !message`), check the session exists, check the service is
configured, append the user message and snapshot the history. -/
def chatPhase1 (now : Nat) (configured : Bool)
    (sessionIdField messageField : Option String) (store : Store V) :
    ChatPhase1Result V :=
  if !truthy sessionIdField || !truthy messageField then
    ChatPhase1Result.early ChatOutcome.badRequest store
  else
    let sessionId := sessionIdField.getD ""
    let message := messageField.getD ""
    match getConversation store sessionId with
    | none => ChatPhase1Result.early ChatOutcome.notFound store
    | some _ =>
      if !configured then
        ChatPhase1Result.early ChatOutcome.notConfigured store
      else
        let appended := addMessage now sessionId Role.user message store
        ChatPhase1Result.suspended sessionId (getMessages appended.2 sessionId) appended.2

/-- The synchronous suffix of the handler, run when the completion call
returns: on failure answer the upstream error without touching the store; on
success append the assistant message (the `addMessage` return value is
ignored) and answer the text. -/
def chatPhase2 (now : Nat) (sessionId : String) (result : CompletionResult)
    (store : Store V) : ChatOutcome × Store V :=
  match result with
  | CompletionResult.err e => (ChatOutcome.upstreamError e, store)
  | CompletionResult.ok message =>
    let appended := addMessage now sessionId Role.assistant message store
    (ChatOutcome.ok message, appended.2)

/-- The whole turn when nothing interleaves at the suspension point: the
completion boundary is a function of the snapshot. -/
def chatTurn (now1 now2 : Nat) (configured : Bool)
    (sessionIdField messageField : Option String)
    (complete : List (Role × String) → CompletionResult) (store : Store V) :
    ChatOutcome × Store V :=
  match chatPhase1 now1 configured sessionIdField messageField store with
  | ChatPhase1Result.early outcome s => (outcome, s)
  | ChatPhase1Result.suspended sessionId snapshot s =>
    chatPhase2 now2 sessionId (complete snapshot) s

/-! ### Operation sequences over the store -/

/-- One call into the `ConversationManager` API. -/
inductive StoreOp (V : Type) where
  | create (now : Nat) (sessionId systemPrompt : String)
  | add (now : Nat) (sessionId : String) (role : Role) (content : String)
  | meta (sessionId : String) (metadata : List (String × V))
  | del (sessionId : String)
  | reset (now : Nat) (sessionId : String)
  | cleanup (now : Nat) (maxInactiveMinutes : ℚ)

/-- The store after one operation. -/
def applyOp : StoreOp V → Store V → Store V
  | StoreOp.create now sid sp, s => (createConversation now sid sp s).2
  | StoreOp.add now sid r c, s => (addMessage now sid r c s).2
  | StoreOp.meta sid m, s => (updateMetadata sid m s).2
  | StoreOp.del sid, s => (deleteConversation sid s).2
  | StoreOp.reset now sid, s => (resetConversation now sid s).2
  | StoreOp.cleanup now t, s => (cleanupInactive now t s).1

/-- The store after a sequence of operations. -/
def applyOps (ops : List (StoreOp V)) (store : Store V) : Store V :=
  ops.foldl (fun s op => applyOp op s) store

/-- A sequence of `addMessage` calls against one session:
`(timestamp, role, content)` triples, oldest first. -/
def applyAdds (adds : List (Nat × Role × String)) (sessionId : String)
    (store : Store V) : Store V :=
  adds.foldl (fun s a => (addMessage a.1 sessionId a.2.1 a.2.2 s).2) store

/-- The `Message` built by `addMessage` from one `applyAdds` triple. -/
def msgOf (a : Nat × Role × String) : Message :=
  { role := a.2.1, content := a.2.2, timestamp := a.1 }

/-- `l.drop (l.length - n)`: the last `n` elements of `l` (all of `l` when it
is shorter).  This is JavaScript `slice(-n)`. -/
def keepLast (n : Nat) (l : List α) : List α :=
  l.drop (l.length - n)

/-! ### Association-list and `keepLast` lemmas -/

theorem lookup_map_set_self (s : Store V) (k : String) (v : Conversation V) :
    List.lookup k (s.map (fun p => if p.1 = k then (k, v) else p)) =
      if s.any (fun p => p.1 = k) then some v else none := by
  induction s with
  | nil => simp [List.lookup]
  | cons p t ih =>
    obtain ⟨a, b⟩ := p
    by_cases hp : a = k
    · simp [hp, List.lookup_cons]
    · have hk : k ≠ a := fun h => hp h.symm
      simp [hp, List.lookup_cons, beq_false_of_ne hk, ih]
      rw [decide_eq_false hp, Bool.false_or]

theorem lookup_map_set_ne (s : Store V) (j k : String) (v : Conversation V)
    (hjk : j ≠ k) :
    List.lookup j (s.map (fun p => if p.1 = k then (k, v) else p)) =
      List.lookup j s := by
  induction s with
  | nil => simp
  | cons p t ih =>
    obtain ⟨a, b⟩ := p
    by_cases hp : a = k
    · subst hp
      simp [List.lookup_cons, beq_false_of_ne hjk, ih]
    · by_cases hjp : j = a
      · simp [hp, List.lookup_cons, hjp]
      · simp [hp, List.lookup_cons, beq_false_of_ne hjp, ih]

theorem lookup_append_self (s : Store V) (k : String) (v : Conversation V)
    (hnone : s.any (fun p => p.1 = k) = false) :
    List.lookup k (s ++ [(k, v)]) = some v := by
  induction s with
  | nil => simp [List.lookup_cons]
  | cons p t ih =>
    obtain ⟨a, b⟩ := p
    simp only [List.any_cons, Bool.or_eq_false_iff] at hnone
    have hp : ¬a = k := by simpa using hnone.1
    have hk : k ≠ a := fun h => hp h.symm
    simp [List.cons_append, List.lookup_cons, beq_false_of_ne hk, ih hnone.2]

theorem lookup_append_ne (s : Store V) (j k : String) (v : Conversation V)
    (hjk : j ≠ k) :
    List.lookup j (s ++ [(k, v)]) = List.lookup j s := by
  induction s with
  | nil => simp [List.lookup_cons, beq_false_of_ne hjk]
  | cons p t ih =>
    obtain ⟨a, b⟩ := p
    by_cases hjp : j = a
    · simp [List.cons_append, List.lookup_cons, hjp]
    · simp [List.cons_append, List.lookup_cons, beq_false_of_ne hjp, ih]

/-- `Map.set` then `Map.get` at the same key yields the new value. -/
theorem mapGet_mapSet_self (s : Store V) (k : String) (v : Conversation V) :
    mapGet (mapSet s k v) k = some v := by
  unfold mapGet mapSet
  by_cases h : s.any (fun p => p.1 = k) = true
  · simp only [h, if_true, lookup_map_set_self, h]
  · have h' : s.any (fun p => p.1 = k) = false := by
      cases ha : s.any (fun p => p.1 = k)
      · rfl
      · exact absurd ha h
    simp only [h', if_false, Bool.false_eq_true, lookup_append_self s k v h']

/-- `Map.set` leaves every other key unchanged. -/
theorem mapGet_mapSet_ne (s : Store V) (j k : String) (v : Conversation V)
    (hjk : j ≠ k) : mapGet (mapSet s k v) j = mapGet s j := by
  unfold mapGet mapSet
  by_cases h : s.any (fun p => p.1 = k) = true
  · simp only [h, if_true, lookup_map_set_ne s j k v hjk]
  · have h' : s.any (fun p => p.1 = k) = false := by
      cases ha : s.any (fun p => p.1 = k)
      · rfl
      · exact absurd ha h
    simp only [h', Bool.false_eq_true, if_false, lookup_append_ne s j k v hjk]

/-- `Map.delete` then `Map.get` at the same key yields nothing. -/
theorem mapGet_mapDelete_self (s : Store V) (k : String) :
    mapGet (mapDelete s k) k = none := by
  unfold mapGet mapDelete
  induction s with
  | nil => simp
  | cons p t ih =>
    obtain ⟨a, b⟩ := p
    by_cases hp : a = k
    · simp [List.filter_cons, hp, ih]
      exact fun x y _ hxk hkx => hxk hkx.symm
    · have hk : k ≠ a := fun h => hp h.symm
      simp [List.filter_cons, hp, List.lookup_cons, beq_false_of_ne hk, ih]
      exact fun x y _ hxk hkx => hxk hkx.symm

/-- `Map.delete` leaves every other key unchanged. -/
theorem mapGet_mapDelete_ne (s : Store V) (j k : String) (hjk : j ≠ k) :
    mapGet (mapDelete s k) j = mapGet s j := by
  unfold mapGet mapDelete
  induction s with
  | nil => simp
  | cons p t ih =>
    obtain ⟨a, b⟩ := p
    simp only [ne_eq, decide_not] at ih
    by_cases hp : a = k
    · have hj : j ≠ a := fun h => hjk (h.trans hp)
      simp [List.filter_cons, hp, List.lookup_cons, beq_false_of_ne hj,
        beq_false_of_ne hjk, ih]
    · by_cases hjp : j = a
      · simp [List.filter_cons, hp, List.lookup_cons, hjp]
      · simp [List.filter_cons, hp, List.lookup_cons, beq_false_of_ne hjp, ih]

/-- Every entry of `mapSet s k v` is either the new binding or an entry of
`s`. -/
theorem mem_mapSet (s : Store V) (k : String) (v : Conversation V) (p)
    (hp : p ∈ mapSet s k v) : p = (k, v) ∨ p ∈ s := by
  unfold mapSet at hp
  by_cases h : s.any (fun q => q.1 = k) = true
  · simp only [h, if_true] at hp
    rcases List.mem_map.mp hp with ⟨q, hq, hqe⟩
    by_cases hqk : q.1 = k
    · left; simp [hqk] at hqe; exact hqe.symm
    · right; simp [hqk] at hqe; exact hqe ▸ hq
  · have h' : s.any (fun q => q.1 = k) = false := by
      cases ha : s.any (fun q => q.1 = k)
      · rfl
      · exact absurd ha h
    simp only [h', Bool.false_eq_true, if_false] at hp
    rcases List.mem_append.mp hp with hmem | hmem
    · right; exact hmem
    · left; simpa using hmem

theorem keepLast_length (n : Nat) (l : List α) :
    (keepLast n l).length = min n l.length := by
  unfold keepLast
  rw [List.length_drop]
  omega

theorem keepLast_of_le (n : Nat) (l : List α) (h : l.length ≤ n) :
    keepLast n l = l := by
  unfold keepLast
  have : l.length - n = 0 := by omega
  rw [this, List.drop_zero]

theorem keepLast_append_right (n : Nat) (xs ys : List α) (h : n ≤ ys.length) :
    keepLast n (xs ++ ys) = keepLast n ys := by
  unfold keepLast
  have hlen : (xs ++ ys).length - n = xs.length + (ys.length - n) := by
    rw [List.length_append]; omega
  rw [hlen, List.drop_append]

theorem keepLast_absorb (n : Nat) (xs ys : List α) :
    keepLast n (keepLast n xs ++ ys) = keepLast n (xs ++ ys) := by
  by_cases h : n ≤ ys.length
  · rw [keepLast_append_right n _ ys h, keepLast_append_right n xs ys h]
  · push_neg at h
    have hA : (keepLast n xs).length = min n xs.length := keepLast_length n xs
    unfold keepLast
    have h1 : ((xs.drop (xs.length - n)) ++ ys).length - n ≤
        (xs.drop (xs.length - n)).length := by
      rw [List.length_append, List.length_drop]; omega
    have h2 : (xs ++ ys).length - n ≤ xs.length := by
      rw [List.length_append]; omega
    rw [List.drop_append_of_le_length h1, List.drop_append_of_le_length h2,
      List.drop_drop]
    congr 2
    rw [List.length_append, List.length_append, List.length_drop]
    omega

theorem getLast?_keepLast (n : Nat) (hn : 1 ≤ n) (l : List α) :
    (keepLast n l).getLast? = l.getLast? := by
  unfold keepLast
  cases l with
  | nil => simp
  | cons x xs =>
    have hk : (x :: xs).length - n < (x :: xs).length := by
      simp only [List.length_cons]; omega
    have hsplit := List.take_append_drop ((x :: xs).length - n) (x :: xs)
    have hne : (x :: xs).drop ((x :: xs).length - n) ≠ [] := by
      intro h
      have := List.length_drop ((x :: xs).length - n) (x :: xs)
      rw [h] at this
      simp at this
      omega
    conv_rhs => rw [← hsplit]
    rw [List.getLast?_append]
    cases hg : ((x :: xs).drop ((x :: xs).length - n)).getLast? with
    | none => exact absurd (List.getLast?_eq_none_iff.mp hg) hne
    | some a => rfl

/-! ### Trim lemmas -/

/-- The trim, on a non-empty pushed list, keeps the head and the last
`maxHistoryLength - 1` elements of the tail (all of them when there is no
overflow). -/
theorem trimMessages_cons (m0 : Message) (t : List Message) :
    trimMessages (m0 :: t) = m0 :: keepLast (maxHistoryLength - 1) t := by
  unfold trimMessages keepLast maxHistoryLength
  by_cases h : (m0 :: t).length > 20
  · rw [if_pos h]
    simp only [List.length_cons] at h ⊢
    have hidx : t.length + 1 - (20 - 1) = (t.length - (20 - 1)) + 1 := by omega
    rw [hidx]
    simp [List.drop_succ_cons]
  · rw [if_neg h]
    simp only [List.length_cons, gt_iff_lt, not_lt] at h
    have : t.length - (20 - 1) = 0 := by omega
    rw [this, List.drop_zero]

theorem trimMessages_of_le (l : List Message) (h : l.length ≤ maxHistoryLength) :
    trimMessages l = l := by
  unfold trimMessages
  rw [if_neg (by omega)]

theorem trimMessages_length (l : List Message) :
    (trimMessages l).length = min l.length maxHistoryLength := by
  cases l with
  | nil => simp [trimMessages, maxHistoryLength]
  | cons m0 t =>
    rw [trimMessages_cons]
    simp only [List.length_cons, keepLast_length]
    unfold maxHistoryLength
    omega

theorem trimMessages_sublist (l : List Message) :
    List.Sublist (trimMessages l) l := by
  cases l with
  | nil => simp [trimMessages]
  | cons m0 t =>
    rw [trimMessages_cons]
    exact List.Sublist.cons₂ m0 (List.drop_sublist _ t)

/-! ### `addMessage` and `applyAdds` lemmas -/

theorem addMessage_absent (now : Nat) (sid : String) (r : Role) (c : String)
    (s : Store V) (h : mapGet s sid = none) :
    addMessage now sid r c s = (false, s) := by
  unfold addMessage
  rw [h]

theorem addMessage_present (now : Nat) (sid : String) (r : Role) (c : String)
    (s : Store V) (conv : Conversation V) (h : mapGet s sid = some conv) :
    addMessage now sid r c s =
      (true, mapSet s sid
        { conv with
          messages := trimMessages (conv.messages ++
            [{ role := r, content := c, timestamp := now }])
          lastActivity := now }) := by
  unfold addMessage
  rw [h]

theorem applyAdds_nil (sid : String) (s : Store V) : applyAdds [] sid s = s := rfl

theorem applyAdds_cons (a : Nat × Role × String) (rest : List (Nat × Role × String))
    (sid : String) (s : Store V) :
    applyAdds (a :: rest) sid s =
      applyAdds rest sid (addMessage a.1 sid a.2.1 a.2.2 s).2 := rfl

/-- Master lemma: running any sequence of `addMessage` calls against a session
whose history is `m0 :: t` (with the tail within the bound) leaves the head in
place and the tail equal to the last `maxHistoryLength - 1` of the old tail
followed by the appended messages; identity, creation time and metadata are
untouched. -/
theorem applyAdds_spec (adds : List (Nat × Role × String)) (sid : String)
    (s : Store V) (conv : Conversation V) (m0 : Message) (t : List Message)
    (hget : mapGet s sid = some conv) (hmsg : conv.messages = m0 :: t)
    (hlen : t.length ≤ maxHistoryLength - 1) :
    ∃ conv', mapGet (applyAdds adds sid s) sid = some conv' ∧
      conv'.messages = m0 :: keepLast (maxHistoryLength - 1) (t ++ adds.map msgOf) ∧
      conv'.id = conv.id ∧ conv'.createdAt = conv.createdAt ∧
      conv'.metadata = conv.metadata := by
  induction adds generalizing s conv t with
  | nil =>
    refine ⟨conv, by simpa [applyAdds_nil] using hget, ?_, rfl, rfl, rfl⟩
    rw [hmsg]
    simp [keepLast_of_le _ _ hlen]
  | cons a rest ih =>
    have hstep := addMessage_present a.1 sid a.2.1 a.2.2 s conv hget
    have hmsgs : trimMessages (conv.messages ++
        [{ role := a.2.1, content := a.2.2, timestamp := a.1 }]) =
        m0 :: keepLast (maxHistoryLength - 1) (t ++ [msgOf a]) := by
      rw [hmsg, List.cons_append, trimMessages_cons]
      rfl
    have hget1 : mapGet (addMessage a.1 sid a.2.1 a.2.2 s).2 sid = some
        { conv with
          messages := m0 :: keepLast (maxHistoryLength - 1) (t ++ [msgOf a])
          lastActivity := a.1 } := by
      rw [hstep]
      rw [← hmsgs]
      exact mapGet_mapSet_self _ _ _
    have hlen1 : (keepLast (maxHistoryLength - 1) (t ++ [msgOf a])).length ≤
        maxHistoryLength - 1 := by
      rw [keepLast_length]
      exact Nat.min_le_left _ _
    obtain ⟨conv', h1, h2, h3, h4, h5⟩ :=
      ih (addMessage a.1 sid a.2.1 a.2.2 s).2 _ _ hget1 rfl hlen1
    refine ⟨conv', ?_, ?_, h3, h4, h5⟩
    · rw [applyAdds_cons]
      exact h1
    · rw [h2, keepLast_absorb]
      simp

theorem resetConversation_present (now : Nat) (sid : String) (s : Store V)
    (conv : Conversation V) (h : mapGet s sid = some conv) :
    resetConversation now sid s =
      (true, mapSet s sid
        { conv with messages := conv.messages.take 1, lastActivity := now }) := by
  unfold resetConversation
  rw [h]

theorem createConversation_get (now : Nat) (sid sp : String) (store : Store V) :
    mapGet (createConversation now sid sp store).2 sid = some
      { id := sid
        messages := [{ role := Role.system, content := sp, timestamp := now }]
        createdAt := now
        lastActivity := now
        metadata := ([] : List (String × V)) } := by
  unfold createConversation
  exact mapGet_mapSet_self _ _ _

/-! ### The claims -/

/-- C1.  For every session in the store and after any sequence of `addMessage`
calls on it, the history has length at most `maxHistoryLength = 20` and its
first message is the system message fixed at creation (role `system`); it is
never evicted by trimming, and `resetConversation` leaves exactly it. -/
theorem history_bound_invariant (V : Type) (now : Nat) (sid systemPrompt : String)
    (store : Store V) (adds : List (Nat × Role × String)) (resetTime : Nat) :
    ∃ conv, mapGet (applyAdds adds sid (createConversation now sid systemPrompt store).2)
        sid = some conv ∧
      conv.messages.length ≤ maxHistoryLength ∧
      conv.messages.head? =
        some { role := Role.system, content := systemPrompt, timestamp := now } ∧
      ∃ convReset,
        mapGet (resetConversation resetTime sid
            (applyAdds adds sid (createConversation now sid systemPrompt store).2)).2
          sid = some convReset ∧
        convReset.messages =
          [{ role := Role.system, content := systemPrompt, timestamp := now }] := by
  have hfresh := createConversation_get now sid systemPrompt store
  obtain ⟨conv, h1, h2, h3, h4, h5⟩ :=
    applyAdds_spec adds sid _ _
      { role := Role.system, content := systemPrompt, timestamp := now } []
      hfresh rfl (by simp)
  refine ⟨conv, h1, ?_, ?_, ?_⟩
  · rw [h2]
    simp only [List.length_cons, keepLast_length]
    unfold maxHistoryLength
    omega
  · rw [h2]
    rfl
  · have hr := resetConversation_present resetTime sid _ conv h1
    refine ⟨{ conv with messages := conv.messages.take 1, lastActivity := resetTime },
      ?_, ?_⟩
    · rw [hr]
      exact mapGet_mapSet_self _ _ _
    · rw [h2]
      simp

/-- The trimmed history after appending to a fresh session, spelled with
`drop`: the system message followed by the most recent `maxHistoryLength - 1`
appended messages. -/
theorem fresh_applyAdds_messages (V : Type) (now : Nat) (sid systemPrompt : String)
    (store : Store V) (adds : List (Nat × Role × String)) :
    ∃ conv, mapGet (applyAdds adds sid (createConversation now sid systemPrompt store).2)
        sid = some conv ∧
      conv.messages = { role := Role.system, content := systemPrompt, timestamp := now } ::
        (adds.map msgOf).drop (adds.length - (maxHistoryLength - 1)) := by
  have hfresh := createConversation_get now sid systemPrompt store
  obtain ⟨conv, h1, h2, h3, h4, h5⟩ :=
    applyAdds_spec adds sid _ _
      { role := Role.system, content := systemPrompt, timestamp := now } []
      hfresh rfl (by simp)
  refine ⟨conv, h1, ?_⟩
  rw [h2]
  unfold keepLast
  simp

/-- C2.  Appending `maxHistoryLength + k` messages (`k ≥ 1`) to a freshly
created session leaves exactly `maxHistoryLength` messages: the original
system message followed by the most recent `maxHistoryLength - 1` appended
messages, in their original relative order and unmutated. -/
theorem trim_correctness (V : Type) (now : Nat) (sid systemPrompt : String)
    (store : Store V) (adds : List (Nat × Role × String)) (k : Nat)
    (hk : 1 ≤ k) (hlen : adds.length = maxHistoryLength + k) :
    ∃ conv, mapGet (applyAdds adds sid (createConversation now sid systemPrompt store).2)
        sid = some conv ∧
      conv.messages = { role := Role.system, content := systemPrompt, timestamp := now } ::
        (adds.map msgOf).drop (adds.length - (maxHistoryLength - 1)) ∧
      conv.messages.length = maxHistoryLength := by
  obtain ⟨conv, h1, h2⟩ := fresh_applyAdds_messages V now sid systemPrompt store adds
  refine ⟨conv, h1, h2, ?_⟩
  rw [h2]
  simp only [List.length_cons, List.length_drop, List.length_map]
  unfold maxHistoryLength at hlen ⊢
  omega

/-- `maxHistoryLength + 1` alternating user/assistant turns. -/
def altAdds : List (Nat × Role × String) :=
  (List.range (maxHistoryLength + 1)).map
    (fun i => (i + 1, if i % 2 = 0 then Role.user else Role.assistant, "m"))

theorem trim_correctness_witness :
    (1 ≤ 1 ∧ altAdds.length = maxHistoryLength + 1) ∧
    (∃ conv,
      mapGet (applyAdds altAdds "s" (createConversation 0 "s" "p" ([] : Store Int)).2)
        "s" = some conv ∧
      conv.messages = { role := Role.system, content := "p", timestamp := 0 } ::
        (altAdds.map msgOf).drop (altAdds.length - (maxHistoryLength - 1)) ∧
      conv.messages.length = maxHistoryLength) :=
  ⟨⟨le_refl 1, by decide⟩,
    trim_correctness Int 0 "s" "p" [] altAdds 1 (le_refl 1) (by decide)⟩

/-- C8.  On an existing session, `resetConversation` truncates the history to
exactly `[messages[0]]` with metadata and `createdAt` untouched, and doing it
twice in a row yields the same single-system-message state both times. -/
theorem reset_idempotent (V : Type) (now1 now2 : Nat) (sid : String)
    (store : Store V) (conv : Conversation V) (m0 : Message) (t : List Message)
    (hget : mapGet store sid = some conv) (hmsg : conv.messages = m0 :: t) :
    ∃ s1 c1 s2 c2,
      resetConversation now1 sid store = (true, s1) ∧
      mapGet s1 sid = some c1 ∧
      c1.messages = [m0] ∧ c1.metadata = conv.metadata ∧ c1.createdAt = conv.createdAt ∧
      resetConversation now2 sid s1 = (true, s2) ∧
      mapGet s2 sid = some c2 ∧
      c2.messages = [m0] ∧ c2.metadata = conv.metadata ∧ c2.createdAt = conv.createdAt := by
  have hr1 := resetConversation_present now1 sid store conv hget
  have hc1get : mapGet (resetConversation now1 sid store).2 sid = some
      { conv with messages := conv.messages.take 1, lastActivity := now1 } := by
    rw [hr1]
    exact mapGet_mapSet_self _ _ _
  have hr2 := resetConversation_present now2 sid (resetConversation now1 sid store).2 _ hc1get
  refine ⟨(resetConversation now1 sid store).2,
    { conv with messages := conv.messages.take 1, lastActivity := now1 },
    (resetConversation now2 sid (resetConversation now1 sid store).2).2,
    { conv with messages := (conv.messages.take 1).take 1, lastActivity := now2 },
    ?_, hc1get, ?_, rfl, rfl, ?_, ?_, ?_, rfl, rfl⟩
  · rw [hr1]
  · simp [hmsg]
  · rw [hr2]
  · rw [hr2]
    exact mapGet_mapSet_self _ _ _
  · simp [hmsg]

theorem reset_idempotent_witness :
    (mapGet (createConversation 0 "s" "p" ([] : Store Int)).2 "s" = some
        { id := "s"
          messages := [{ role := Role.system, content := "p", timestamp := 0 }]
          createdAt := 0, lastActivity := 0, metadata := [] } ∧
      ({ id := "s"
         messages := [{ role := Role.system, content := "p", timestamp := 0 }]
         createdAt := 0, lastActivity := 0,
         metadata := [] } : Conversation Int).messages =
        { role := Role.system, content := "p", timestamp := 0 } :: []) ∧
    (∃ s1 c1 s2 c2,
      resetConversation 3 "s" (createConversation 0 "s" "p" ([] : Store Int)).2 =
        (true, s1) ∧
      mapGet s1 "s" = some c1 ∧
      c1.messages = [{ role := Role.system, content := "p", timestamp := 0 }] ∧
      c1.metadata = ([] : List (String × Int)) ∧ c1.createdAt = 0 ∧
      resetConversation 7 "s" s1 = (true, s2) ∧
      mapGet s2 "s" = some c2 ∧
      c2.messages = [{ role := Role.system, content := "p", timestamp := 0 }] ∧
      c2.metadata = ([] : List (String × Int)) ∧ c2.createdAt = 0) :=
  ⟨⟨by decide, rfl⟩,
    reset_idempotent Int 3 7 "s" (createConversation 0 "s" "p" ([] : Store Int)).2
      { id := "s"
        messages := [{ role := Role.system, content := "p", timestamp := 0 }]
        createdAt := 0, lastActivity := 0, metadata := [] }
      { role := Role.system, content := "p", timestamp := 0 } []
      (by decide) rfl⟩

/-- C10.  `createConversation` never fails and performs no collision check:
whatever the store holds, it returns the fresh one-system-message record and
maps the id to it, overwriting any previous session stored under that id,
while every other id is untouched. -/
theorem create_overwrites (V : Type) (now : Nat) (sid systemPrompt : String)
    (store : Store V) :
    (createConversation now sid systemPrompt store).1 =
      { id := sid
        messages := [{ role := Role.system, content := systemPrompt, timestamp := now }]
        createdAt := now, lastActivity := now, metadata := [] } ∧
    mapGet (createConversation now sid systemPrompt store).2 sid =
      some { id := sid
             messages := [{ role := Role.system, content := systemPrompt, timestamp := now }]
             createdAt := now, lastActivity := now, metadata := [] } ∧
    ∀ j, j ≠ sid →
      mapGet (createConversation now sid systemPrompt store).2 j = mapGet store j :=
  ⟨rfl, createConversation_get now sid systemPrompt store,
    fun j hj => mapGet_mapSet_ne store j sid _ hj⟩

theorem create_overwrites_witness :
    ("t" ≠ "s" ∧
      mapGet (createConversation 5 "s" "q"
          [("s", ({ id := "s"
                    messages := [{ role := Role.system, content := "p", timestamp := 0 }]
                    createdAt := 0, lastActivity := 0,
                    metadata := [] } : Conversation Int))]).2 "t" =
        mapGet [("s", ({ id := "s"
                         messages := [{ role := Role.system, content := "p", timestamp := 0 }]
                         createdAt := 0, lastActivity := 0,
                         metadata := [] } : Conversation Int))] "t") :=
  ⟨by decide,
    (create_overwrites Int 5 "s" "q"
      [("s", { id := "s"
               messages := [{ role := Role.system, content := "p", timestamp := 0 }]
               createdAt := 0, lastActivity := 0,
               metadata := [] })]).2.2 "t" (by decide)⟩

/-- C6.  If the session was deleted while the completion call was suspended,
the append of the assistant message on return re-checks existence and is a
silent no-op: `addMessage` returns `false` without raising and the store is
left unchanged (the handler still answers the completion text). -/
theorem append_after_delete_noop (V : Type) (now : Nat) (sid message : String)
    (s0 : Store V) :
    addMessage now sid Role.assistant message (deleteConversation sid s0).2 =
      (false, (deleteConversation sid s0).2) ∧
    chatPhase2 now sid (CompletionResult.ok message) (deleteConversation sid s0).2 =
      (ChatOutcome.ok message, (deleteConversation sid s0).2) := by
  have hnone : mapGet (deleteConversation sid s0).2 sid = none :=
    mapGet_mapDelete_self s0 sid
  have habs := addMessage_absent now sid Role.assistant message _ hnone
  exact ⟨habs, by simp [chatPhase2, habs]⟩

/-! ### Cleanup lemmas -/

theorem cleanup_foldl (now : Nat) (T : ℚ) (l : List (String × Conversation V))
    (acc : Store V) (n : Nat) :
    l.foldl (fun acc p =>
        if inactiveMinutes now p.2 > T then (mapDelete acc.1 p.1, acc.2 + 1)
        else acc) (acc, n) =
      ((l.filter (fun p => decide (inactiveMinutes now p.2 > T))).foldl
        (fun s q => mapDelete s q.1) acc,
       n + (l.filter (fun p => decide (inactiveMinutes now p.2 > T))).length) := by
  induction l generalizing acc n with
  | nil => simp
  | cons p t ih =>
    by_cases hc : inactiveMinutes now p.2 > T
    · have hf : (p :: t).filter (fun p => decide (inactiveMinutes now p.2 > T)) =
          p :: t.filter (fun p => decide (inactiveMinutes now p.2 > T)) := by
        simp [List.filter_cons, hc]
      rw [List.foldl_cons, if_pos hc, ih, hf, List.foldl_cons, List.length_cons]
      congr 1
      omega
    · simp only [List.foldl_cons, if_neg hc, List.filter_cons, decide_eq_false hc,
        ih, Bool.false_eq_true, if_false]

theorem foldl_mapDelete_filter (qs : List (String × Conversation V)) (acc : Store V) :
    qs.foldl (fun s q => mapDelete s q.1) acc =
      acc.filter (fun p => decide (∀ q ∈ qs, p.1 ≠ q.1)) := by
  induction qs generalizing acc with
  | nil => simp
  | cons q qs' ih =>
    rw [List.foldl_cons, ih]
    unfold mapDelete
    rw [List.filter_filter]
    refine List.filter_congr (fun p _ => ?_)
    by_cases h1 : p.1 = q.1
    · have hno : ¬(∀ x ∈ q :: qs', p.1 ≠ x.1) :=
        fun h => h q (List.mem_cons_self q qs') h1
      rw [decide_eq_false hno,
        show decide (p.1 ≠ q.1) = false from decide_eq_false (fun hne => hne h1)]
      simp
    · by_cases h2 : ∀ x ∈ qs', p.1 ≠ x.1
      · have hyes : ∀ x ∈ q :: qs', p.1 ≠ x.1 := List.forall_mem_cons.mpr ⟨h1, h2⟩
        rw [decide_eq_true hyes, decide_eq_true h2, decide_eq_true h1]
        simp
      · have hno : ¬(∀ x ∈ q :: qs', p.1 ≠ x.1) :=
          fun h => h2 (List.forall_mem_cons.mp h).2
        rw [decide_eq_false hno, decide_eq_false h2]
        simp

/-- With pairwise-distinct keys, deleting the keys of the offending entries is
the same as filtering the offending entries out. -/
theorem cleanupInactive_eq_filter (now : Nat) (T : ℚ) (store : Store V)
    (hnodup : (store.map Prod.fst).Nodup) :
    cleanupInactive now T store =
      (store.filter (fun p => !(decide (inactiveMinutes now p.2 > T))),
       (store.filter (fun p => decide (inactiveMinutes now p.2 > T))).length) := by
  unfold cleanupInactive
  rw [cleanup_foldl, foldl_mapDelete_filter]
  have hpw : store.Pairwise (fun a b => a.1 ≠ b.1) := List.pairwise_map.mp hnodup
  have hsym : Symmetric (fun (a b : String × Conversation V) => a.1 ≠ b.1) := by
    intro a b h e
    exact h e.symm
  have hkey : ∀ p ∈ store, ∀ q ∈ store, p.1 = q.1 → p = q := by
    intro p hp q hq hpq
    by_contra hne
    exact (hpw.forall hsym hp hq hne) hpq
  refine Prod.ext ?_ (by simp)
  simp only
  refine List.filter_congr (fun p hp => ?_)
  by_cases hc : inactiveMinutes now p.2 > T
  · have hpf : p ∈ store.filter (fun q => decide (inactiveMinutes now q.2 > T)) :=
      List.mem_filter.mpr ⟨hp, decide_eq_true hc⟩
    have hnall : ¬(∀ q ∈ store.filter
        (fun q => decide (inactiveMinutes now q.2 > T)), p.1 ≠ q.1) :=
      fun h => (h p hpf) rfl
    rw [decide_eq_false hnall, decide_eq_true hc]
    simp
  · have hall : ∀ q ∈ store.filter
        (fun q => decide (inactiveMinutes now q.2 > T)), p.1 ≠ q.1 := by
      intro q hq hpq
      have hqs := (List.mem_filter.mp hq).1
      have hqc := of_decide_eq_true ((List.mem_filter.mp hq).2)
      rw [hkey p hp q hqs hpq] at hc
      exact hc hqc
    rw [decide_eq_true hall, decide_eq_false hc]
    simp

/-- A concrete one-session store over `Int` metadata, for concrete scenarios. -/
def demoConv : Conversation Int :=
  { id := "s"
    messages := [{ role := Role.system, content := "p", timestamp := 0 }]
    createdAt := 0, lastActivity := 0, metadata := [] }

/-- C5.  The sweep removes exactly the sessions whose inactivity in minutes is
strictly greater than the threshold and returns the number removed; a session
61 minutes inactive with threshold 60 is removed by one sweep, one at exactly
60 minutes is not. -/
theorem expiry_sweep (V : Type) (now : Nat) (T : ℚ) (store : Store V)
    (hnodup : (store.map Prod.fst).Nodup) :
    cleanupInactive now T store =
      (store.filter (fun p => !(decide (inactiveMinutes now p.2 > T))),
       (store.filter (fun p => decide (inactiveMinutes now p.2 > T))).length) ∧
    cleanupInactive (61 * 60000) 60 (createConversation 0 "s" "p" ([] : Store Int)).2 =
      ([], 1) ∧
    cleanupInactive (60 * 60000) 60 (createConversation 0 "s" "p" ([] : Store Int)).2 =
      ((createConversation 0 "s" "p" ([] : Store Int)).2, 0) := by
  refine ⟨cleanupInactive_eq_filter now T store hnodup, ?_, ?_⟩
  · rw [show (createConversation 0 "s" "p" ([] : Store Int)).2 = [("s", demoConv)]
      from by decide]
    unfold cleanupInactive
    rw [List.foldl_cons,
      if_pos (show inactiveMinutes (61 * 60000) demoConv > 60 from by
        norm_num [inactiveMinutes, demoConv]),
      List.foldl_nil]
    decide
  · rw [show (createConversation 0 "s" "p" ([] : Store Int)).2 = [("s", demoConv)]
      from by decide]
    unfold cleanupInactive
    rw [List.foldl_cons,
      if_neg (show ¬inactiveMinutes (60 * 60000) demoConv > 60 from by
        norm_num [inactiveMinutes, demoConv]),
      List.foldl_nil]

theorem expiry_sweep_witness :
    ((([] : Store Int).map Prod.fst).Nodup) ∧
    (cleanupInactive 0 0 ([] : Store Int) =
      (([] : Store Int).filter (fun p => !(decide (inactiveMinutes 0 p.2 > 0))),
       (([] : Store Int).filter (fun p => decide (inactiveMinutes 0 p.2 > 0))).length) ∧
     cleanupInactive (61 * 60000) 60 (createConversation 0 "s" "p" ([] : Store Int)).2 =
       ([], 1) ∧
     cleanupInactive (60 * 60000) 60 (createConversation 0 "s" "p" ([] : Store Int)).2 =
       ((createConversation 0 "s" "p" ([] : Store Int)).2, 0)) :=
  ⟨List.nodup_nil, expiry_sweep Int 0 0 [] List.nodup_nil⟩

/-! ### Metadata merge lemmas -/

theorem lookup_append_left {β : Type} (A B : List (String × β)) (k : String)
    (v : β) (h : List.lookup k A = some v) : List.lookup k (A ++ B) = some v := by
  induction A with
  | nil => simp [List.lookup] at h
  | cons p t ih =>
    obtain ⟨a, b⟩ := p
    by_cases hk : k = a
    · simp only [List.cons_append, List.lookup_cons] at h ⊢
      simpa [beq_iff_eq, hk] using h
    · simp only [List.cons_append, List.lookup_cons, beq_false_of_ne hk] at h ⊢
      exact ih h

theorem lookup_append_right {β : Type} (A B : List (String × β)) (k : String)
    (h : List.lookup k A = none) : List.lookup k (A ++ B) = List.lookup k B := by
  induction A with
  | nil => simp
  | cons p t ih =>
    obtain ⟨a, b⟩ := p
    by_cases hk : k = a
    · rw [List.lookup_cons] at h
      simp [beq_iff_eq, hk] at h
    · simp only [List.cons_append, List.lookup_cons, beq_false_of_ne hk] at h ⊢
      exact ih h

theorem lookup_none_forall {β : Type} (l : List (String × β)) (k : String) :
    List.lookup k l = none ↔ ∀ q ∈ l, q.1 ≠ k := by
  induction l with
  | nil => simp
  | cons p t ih =>
    obtain ⟨a, b⟩ := p
    by_cases hk : k = a
    · subst hk
      simp [List.lookup_cons]
    · rw [List.lookup_cons, beq_false_of_ne hk, ih]
      constructor
      · intro h
        refine List.forall_mem_cons.mpr ⟨fun e => hk e.symm, h⟩
      · intro h
        exact (List.forall_mem_cons.mp h).2

/-- The per-entry override of `mergeMeta` keeps the key. -/
theorem mergeMeta_map_key {β : Type} (incoming : List (String × β))
    (q : String × β) :
    ((fun (p : String × β) => match incoming.lookup p.1 with
      | some v => (p.1, v)
      | none => p) q).1 = q.1 := by
  cases h : incoming.lookup q.1 <;> simp [h]

theorem lookup_mergeMeta_map_none {β : Type} (old incoming : List (String × β))
    (k : String) (hold : List.lookup k old = none) :
    List.lookup k (old.map (fun p => match incoming.lookup p.1 with
      | some v => (p.1, v)
      | none => p)) = none := by
  rw [lookup_none_forall] at hold ⊢
  intro q hq
  rcases List.mem_map.mp hq with ⟨q0, hq0, hq0e⟩
  rw [← hq0e, mergeMeta_map_key]
  exact hold q0 hq0

theorem lookup_mergeMeta_map_some {β : Type} (old incoming : List (String × β))
    (k : String) (v : β) (w : β) (hold : List.lookup k old = some w)
    (hinc : List.lookup k incoming = some v) :
    List.lookup k (old.map (fun p => match incoming.lookup p.1 with
      | some v => (p.1, v)
      | none => p)) = some v := by
  induction old with
  | nil => simp [List.lookup] at hold
  | cons p t ih =>
    obtain ⟨a, b⟩ := p
    by_cases hk : k = a
    · subst hk
      simp only [List.map_cons, hinc, List.lookup_cons]
      simp
    · rw [List.lookup_cons, beq_false_of_ne hk] at hold
      simp only [List.map_cons]
      cases ha : incoming.lookup a with
      | none =>
        rw [List.lookup_cons, beq_false_of_ne hk]
        exact ih hold
      | some va =>
        rw [List.lookup_cons, beq_false_of_ne hk]
        exact ih hold

theorem lookup_mergeMeta_map_skip {β : Type} (old incoming : List (String × β))
    (k : String) (hinc : List.lookup k incoming = none) :
    List.lookup k (old.map (fun p => match incoming.lookup p.1 with
      | some v => (p.1, v)
      | none => p)) = List.lookup k old := by
  induction old with
  | nil => simp
  | cons p t ih =>
    obtain ⟨a, b⟩ := p
    by_cases hk : k = a
    · subst hk
      simp only [List.map_cons, hinc, List.lookup_cons]
      simp
    · simp only [List.map_cons]
      cases ha : incoming.lookup a with
      | none =>
        rw [List.lookup_cons, beq_false_of_ne hk, List.lookup_cons,
          beq_false_of_ne hk]
        exact ih
      | some va =>
        rw [List.lookup_cons, beq_false_of_ne hk, List.lookup_cons,
          beq_false_of_ne hk]
        exact ih

theorem lookup_mergeMeta_filter {β : Type} (old incoming : List (String × β))
    (k : String) (hold : List.lookup k old = none) :
    List.lookup k (incoming.filter
      (fun q => !old.any (fun p => p.1 = q.1))) = List.lookup k incoming := by
  induction incoming with
  | nil => simp
  | cons q t ih =>
    obtain ⟨a, b⟩ := q
    by_cases hk : k = a
    · subst hk
      have hany : old.any (fun p => p.1 = k) = false := by
        rw [lookup_none_forall] at hold
        rw [List.any_eq_false]
        intro p hp
        simpa using hold p hp
      simp [List.filter_cons, hany, List.lookup_cons]
    · simp only [List.filter_cons]
      cases hc : (!old.any (fun p => p.1 = a)) with
      | true =>
        simp [List.lookup_cons, beq_false_of_ne hk, ih]
      | false =>
        simp [List.lookup_cons, beq_false_of_ne hk, ih]

theorem lookup_mergeMeta_filter_none {β : Type} (old incoming : List (String × β))
    (k : String) (hinc : List.lookup k incoming = none) :
    List.lookup k (incoming.filter
      (fun q => !old.any (fun p => p.1 = q.1))) = none := by
  rw [lookup_none_forall] at hinc ⊢
  intro q hq
  exact hinc q (List.mem_filter.mp hq).1

/-- Every key of `incoming` ends up in the merged metadata with its incoming
value. -/
theorem lookup_mergeMeta_incoming {β : Type} (old incoming : List (String × β))
    (k : String) (v : β) (hinc : List.lookup k incoming = some v) :
    List.lookup k (mergeMeta old incoming) = some v := by
  unfold mergeMeta
  cases hold : List.lookup k old with
  | some w =>
    exact lookup_append_left _ _ k v
      (lookup_mergeMeta_map_some old incoming k v w hold hinc)
  | none =>
    exact (lookup_append_right _ _ k
      (lookup_mergeMeta_map_none old incoming k hold)).trans
      ((lookup_mergeMeta_filter old incoming k hold).trans hinc)

/-- Every key absent from `incoming` keeps its previous value in the merged
metadata. -/
theorem lookup_mergeMeta_old {β : Type} (old incoming : List (String × β))
    (k : String) (hinc : List.lookup k incoming = none) :
    List.lookup k (mergeMeta old incoming) = List.lookup k old := by
  unfold mergeMeta
  cases hold : List.lookup k old with
  | some w =>
    exact lookup_append_left _ _ k w
      ((lookup_mergeMeta_map_skip old incoming k hinc).trans hold)
  | none =>
    exact (lookup_append_right _ _ k
      (lookup_mergeMeta_map_none old incoming k hold)).trans
      (lookup_mergeMeta_filter_none old incoming k hinc)

/-- C7.  On an existing session, `updateMetadata` shallow-merges the patch
into the metadata: every key of the patch ends up with its patch value, every
other key keeps its previous value; in particular the updates `{a:1}`,
`{b:2}`, `{a:3}` in sequence leave metadata `{a:3, b:2}`. -/
theorem metadata_merge (V : Type) (sid : String) (store : Store V)
    (conv : Conversation V) (patch : List (String × V))
    (hget : mapGet store sid = some conv) :
    (∃ s', updateMetadata sid patch store = (true, s') ∧
      ∃ conv', mapGet s' sid = some conv' ∧
        conv'.metadata = mergeMeta conv.metadata patch ∧
        (∀ k v, patch.lookup k = some v → conv'.metadata.lookup k = some v) ∧
        (∀ k, patch.lookup k = none →
          conv'.metadata.lookup k = conv.metadata.lookup k)) ∧
    (mapGet (updateMetadata "s" [("a", (3 : Int))]
        (updateMetadata "s" [("b", 2)]
          (updateMetadata "s" [("a", 1)]
            (createConversation 0 "s" "p" ([] : Store Int)).2).2).2).2 "s").map
      Conversation.metadata = some [("a", 3), ("b", 2)] := by
  constructor
  · have hupd : updateMetadata sid patch store =
        (true, mapSet store sid
          { conv with metadata := mergeMeta conv.metadata patch }) := by
      unfold updateMetadata
      rw [hget]
    refine ⟨mapSet store sid { conv with metadata := mergeMeta conv.metadata patch },
      hupd, { conv with metadata := mergeMeta conv.metadata patch },
      mapGet_mapSet_self _ _ _, rfl, ?_, ?_⟩
    · intro k v h
      exact lookup_mergeMeta_incoming conv.metadata patch k v h
    · intro k h
      exact lookup_mergeMeta_old conv.metadata patch k h
  · decide

theorem metadata_merge_witness :
    mapGet [("s", demoConv)] "s" = some demoConv ∧
    ((∃ s', updateMetadata "s" [("a", (1 : Int))] [("s", demoConv)] = (true, s') ∧
      ∃ conv', mapGet s' "s" = some conv' ∧
        conv'.metadata = mergeMeta demoConv.metadata [("a", (1 : Int))] ∧
        (∀ k v, List.lookup k [("a", (1 : Int))] = some v →
          conv'.metadata.lookup k = some v) ∧
        (∀ k, List.lookup k [("a", (1 : Int))] = none →
          conv'.metadata.lookup k = demoConv.metadata.lookup k)) ∧
    (mapGet (updateMetadata "s" [("a", (3 : Int))]
        (updateMetadata "s" [("b", 2)]
          (updateMetadata "s" [("a", 1)]
            (createConversation 0 "s" "p" ([] : Store Int)).2).2).2).2 "s").map
      Conversation.metadata = some [("a", 3), ("b", 2)]) :=
  ⟨by decide, metadata_merge Int "s" [("s", demoConv)] demoConv
    [("a", (1 : Int))] (by decide)⟩

/-! ### Stats lemmas -/

/-- A history shaped as the server produces it: a leading system message
followed only by user/assistant messages. -/
def WellFormedMessages (c : Conversation V) : Prop :=
  ∃ m0 t, c.messages = m0 :: t ∧ m0.role = Role.system ∧
    ∀ m ∈ t, m.role = Role.user ∨ m.role = Role.assistant

/-- The operation appends only `user`/`assistant` messages (any non-append
operation qualifies). -/
def addsUserAssistant : StoreOp V → Bool
  | StoreOp.add _ _ r _ => r == Role.user || r == Role.assistant
  | _ => true

theorem mapGet_mem (store : Store V) (k : String) (conv : Conversation V)
    (h : mapGet store k = some conv) : (k, conv) ∈ store := by
  unfold mapGet at h
  induction store with
  | nil => simp [List.lookup] at h
  | cons p t ih =>
    obtain ⟨a, b⟩ := p
    by_cases hk : k = a
    · subst hk
      rw [List.lookup_cons] at h
      simp only [beq_self_eq_true] at h
      injection h with h
      subst h
      exact List.mem_cons_self _ _
    · rw [List.lookup_cons, beq_false_of_ne hk] at h
      exact List.mem_cons_of_mem _ (ih h)

theorem count_user_assistant (t : List Message)
    (h : ∀ m ∈ t, m.role = Role.user ∨ m.role = Role.assistant) :
    (t.filter (fun m => m.role = Role.user)).length +
      (t.filter (fun m => m.role = Role.assistant)).length = t.length := by
  induction t with
  | nil => simp
  | cons m t ih =>
    have hm := (List.forall_mem_cons.mp h).1
    have ht := (List.forall_mem_cons.mp h).2
    rcases hm with hu | ha
    · simp [List.filter_cons, hu]
      have := ih ht
      omega
    · simp [List.filter_cons, ha]
      have := ih ht
      omega

theorem applyOp_preserves (op : StoreOp V) (hop : addsUserAssistant op = true)
    (store : Store V) (hinv : ∀ p ∈ store, WellFormedMessages p.2) :
    ∀ p ∈ applyOp op store, WellFormedMessages p.2 := by
  cases op with
  | create now sid sp =>
    intro p hp
    rcases mem_mapSet store sid _ p hp with he | hmem
    · subst he
      exact ⟨_, [], rfl, rfl, by simp⟩
    · exact hinv p hmem
  | add now sid r c =>
    intro p hp
    simp only [applyOp] at hp
    cases hg : mapGet store sid with
    | none =>
      rw [addMessage_absent now sid r c store hg] at hp
      exact hinv p hp
    | some conv =>
      rw [addMessage_present now sid r c store conv hg] at hp
      obtain ⟨m0, t, hmsg, hrole, htail⟩ := hinv (sid, conv) (mapGet_mem store sid conv hg)
      rcases mem_mapSet store sid _ p hp with he | hmem
      · subst he
        refine ⟨m0, keepLast (maxHistoryLength - 1)
          (t ++ [{ role := r, content := c, timestamp := now }]), ?_, hrole, ?_⟩
        · simp only
          rw [hmsg, List.cons_append, trimMessages_cons]
        · intro m hm
          have hm2 : m ∈ t ++ [{ role := r, content := c, timestamp := now }] :=
            List.drop_subset _ _ hm
          rcases List.mem_append.mp hm2 with hm3 | hm3
          · exact htail m hm3
          · have : m = { role := r, content := c, timestamp := now } := by simpa using hm3
            subst this
            simp only
            unfold addsUserAssistant at hop
            rcases Bool.or_eq_true_iff.mp hop with h | h
            · exact Or.inl (eq_of_beq h)
            · exact Or.inr (eq_of_beq h)
      · exact hinv p hmem
  | meta sid m =>
    intro p hp
    simp only [applyOp] at hp
    unfold updateMetadata at hp
    cases hg : mapGet store sid with
    | none =>
      rw [hg] at hp
      exact hinv p hp
    | some conv =>
      rw [hg] at hp
      rcases mem_mapSet store sid _ p hp with he | hmem
      · subst he
        obtain ⟨m0, t, hmsg, hrole, htail⟩ := hinv (sid, conv) (mapGet_mem store sid conv hg)
        exact ⟨m0, t, hmsg, hrole, htail⟩
      · exact hinv p hmem
  | del sid =>
    intro p hp
    simp only [applyOp] at hp
    unfold deleteConversation mapDelete at hp
    exact hinv p (List.mem_filter.mp hp).1
  | reset now sid =>
    intro p hp
    simp only [applyOp] at hp
    cases hg : mapGet store sid with
    | none =>
      unfold resetConversation at hp
      rw [hg] at hp
      exact hinv p hp
    | some conv =>
      rw [resetConversation_present now sid store conv hg] at hp
      rcases mem_mapSet store sid _ p hp with he | hmem
      · subst he
        obtain ⟨m0, t, hmsg, hrole, htail⟩ := hinv (sid, conv) (mapGet_mem store sid conv hg)
        refine ⟨m0, [], ?_, hrole, by simp⟩
        simp only
        rw [hmsg]
        simp
      · exact hinv p hmem
  | cleanup now T =>
    intro p hp
    simp only [applyOp] at hp
    unfold cleanupInactive at hp
    rw [cleanup_foldl, foldl_mapDelete_filter] at hp
    simp only at hp
    exact hinv p (List.mem_filter.mp hp).1

theorem applyOps_preserves (ops : List (StoreOp V))
    (hops : ∀ op ∈ ops, addsUserAssistant op = true) (store : Store V)
    (hinv : ∀ p ∈ store, WellFormedMessages p.2) :
    ∀ p ∈ applyOps ops store, WellFormedMessages p.2 := by
  induction ops generalizing store with
  | nil => exact hinv
  | cons op rest ih =>
    have h1 := (List.forall_mem_cons.mp hops).1
    have h2 := (List.forall_mem_cons.mp hops).2
    exact ih h2 (applyOp op store) (applyOp_preserves op h1 store hinv)

/-- C4, as claimed: refuted.  `addMessage` also accepts role `system`
(documented in its JSDoc), and appending a second system message breaks
`userMessages + assistantMessages + 1 = raw length`. -/
theorem stats_consistency_counterexample :
    (getStats (addMessage 1 "s" Role.system "x"
        (createConversation 0 "s" "p" ([] : Store Int)).2).2 "s").map
      (fun st => st.userMessages + st.assistantMessages + 1) ≠
    (mapGet (addMessage 1 "s" Role.system "x"
        (createConversation 0 "s" "p" ([] : Store Int)).2).2 "s").map
      (fun c => c.messages.length) := by decide

/-- C4, amended.  After any operation sequence in which every `addMessage`
carries role `user` or `assistant` (as at every server call site), every
session satisfies `stats.userMessages + stats.assistantMessages + 1 = raw
message count`, and the reported total is the raw count minus one. -/
theorem stats_consistency (V : Type) (ops : List (StoreOp V))
    (hops : ∀ op ∈ ops, addsUserAssistant op = true) (sid : String)
    (st : Stats V) (conv : Conversation V)
    (hstats : getStats (applyOps ops []) sid = some st)
    (hconv : mapGet (applyOps ops []) sid = some conv) :
    st.userMessages + st.assistantMessages + 1 = conv.messages.length ∧
    st.totalMessages = conv.messages.length - 1 := by
  unfold getStats at hstats
  rw [hconv] at hstats
  injection hstats with hst
  obtain ⟨m0, t, hmsg, hrole, htail⟩ :=
    applyOps_preserves ops hops [] (by simp) (sid, conv)
      (mapGet_mem _ _ _ hconv)
  subst hst
  constructor
  · simp only
    rw [hmsg]
    have h1 : (decide (m0.role = Role.user)) = false := by
      rw [hrole]; rfl
    have h2 : (decide (m0.role = Role.assistant)) = false := by
      rw [hrole]; rfl
    simp only [List.filter_cons, h1, h2, Bool.false_eq_true, if_false,
      List.length_cons]
    rw [count_user_assistant t htail]
  · rfl

theorem stats_consistency_witness :
    ((∀ op ∈ ([StoreOp.create 0 "s" "p", StoreOp.add 1 "s" Role.user "hi",
        StoreOp.add 2 "s" Role.assistant "yo"] : List (StoreOp Int)),
        addsUserAssistant op = true) ∧
      getStats (applyOps [StoreOp.create 0 "s" "p", StoreOp.add 1 "s" Role.user "hi",
        StoreOp.add 2 "s" Role.assistant "yo"] ([] : Store Int)) "s" = some
        { totalMessages := 2, userMessages := 1, assistantMessages := 1,
          createdAt := 0, lastActivity := 2, metadata := [] } ∧
      mapGet (applyOps [StoreOp.create 0 "s" "p", StoreOp.add 1 "s" Role.user "hi",
        StoreOp.add 2 "s" Role.assistant "yo"] ([] : Store Int)) "s" = some
        { id := "s"
          messages := [{ role := Role.system, content := "p", timestamp := 0 },
            { role := Role.user, content := "hi", timestamp := 1 },
            { role := Role.assistant, content := "yo", timestamp := 2 }]
          createdAt := 0, lastActivity := 2, metadata := [] }) ∧
    ((1 : Nat) + 1 + 1 =
      ([{ role := Role.system, content := "p", timestamp := 0 },
        { role := Role.user, content := "hi", timestamp := 1 },
        { role := Role.assistant, content := "yo", timestamp := 2 }] :
          List Message).length ∧
     (2 : Nat) =
      ([{ role := Role.system, content := "p", timestamp := 0 },
        { role := Role.user, content := "hi", timestamp := 1 },
        { role := Role.assistant, content := "yo", timestamp := 2 }] :
          List Message).length - 1) :=
  ⟨⟨by decide, by decide, by decide⟩,
    stats_consistency Int
      [StoreOp.create 0 "s" "p", StoreOp.add 1 "s" Role.user "hi",
        StoreOp.add 2 "s" Role.assistant "yo"]
      (by decide) "s"
      { totalMessages := 2, userMessages := 1, assistantMessages := 1,
        createdAt := 0, lastActivity := 2, metadata := [] }
      { id := "s"
        messages := [{ role := Role.system, content := "p", timestamp := 0 },
          { role := Role.user, content := "hi", timestamp := 1 },
          { role := Role.assistant, content := "yo", timestamp := 2 }]
        createdAt := 0, lastActivity := 2, metadata := [] }
      (by decide) (by decide)⟩

theorem isEmpty_false_of_ne (s : String) (h : s ≠ "") : s.isEmpty = false := by
  cases he : s.isEmpty
  · rfl
  · exact absurd ((String.isEmpty_iff s).mp he) h

/-- C9.  System-prompt resolution is pure and deterministic: an unknown mode
identifier falls back to the `TP_ASSISTANT` template; the four optional
context fields are appended, in that fixed order, as labelled plain-text
clauses when present (truthy), and an absent field contributes nothing to the
resulting string. -/
theorem prompt_resolution (modeId base s1 s2 s3 s4 : String) (ctx : PromptContext)
    (hm1 : modeId ≠ "TP_ASSISTANT") (hm2 : modeId ≠ "PROGRAMMING_TUTOR")
    (hm3 : modeId ≠ "DEBUG_HELPER")
    (h1 : s1 ≠ "") (h2 : s2 ≠ "") (h3 : s3 ≠ "") (h4 : s4 ≠ "") :
    basePromptFor modeId = TP_ASSISTANT ∧
    buildSystemPrompt base
      { tpSubject := none, tpObjectives := none, studentLevel := none,
        constraints := none } = base ∧
    buildSystemPrompt base
      { tpSubject := some s1, tpObjectives := some s2, studentLevel := some s3,
        constraints := some s4 } =
      base ++ "\n\nSujet du TP : " ++ s1 ++ "\n\nObjectifs pédagogiques : " ++ s2 ++
      "\n\nNiveau de l'étudiant : " ++ s3 ++ "\n\nContraintes particulières : " ++ s4 ∧
    (¬truthy ctx.tpSubject = true →
      buildSystemPrompt base ctx = buildSystemPrompt base { ctx with tpSubject := none }) ∧
    (¬truthy ctx.tpObjectives = true →
      buildSystemPrompt base ctx = buildSystemPrompt base { ctx with tpObjectives := none }) ∧
    (¬truthy ctx.studentLevel = true →
      buildSystemPrompt base ctx = buildSystemPrompt base { ctx with studentLevel := none }) ∧
    (¬truthy ctx.constraints = true →
      buildSystemPrompt base ctx = buildSystemPrompt base { ctx with constraints := none }) := by
  obtain ⟨f1, f2, f3, f4⟩ := ctx
  refine ⟨?_, rfl, ?_, ?_, ?_, ?_, ?_⟩
  · unfold basePromptFor SYSTEM_PROMPTS
    rw [if_neg hm1, if_neg hm2, if_neg hm3]
    rfl
  · unfold buildSystemPrompt
    simp only [isEmpty_false_of_ne s1 h1, isEmpty_false_of_ne s2 h2,
      isEmpty_false_of_ne s3 h3, isEmpty_false_of_ne s4 h4,
      Bool.false_eq_true, if_false]
  · intro h
    cases f1 with
    | none => rfl
    | some s =>
      have hs : s.isEmpty = true := by
        simpa [truthy] using h
      simp [buildSystemPrompt, hs]
  · intro h
    cases f2 with
    | none => rfl
    | some s =>
      have hs : s.isEmpty = true := by
        simpa [truthy] using h
      simp [buildSystemPrompt, hs]
  · intro h
    cases f3 with
    | none => rfl
    | some s =>
      have hs : s.isEmpty = true := by
        simpa [truthy] using h
      simp [buildSystemPrompt, hs]
  · intro h
    cases f4 with
    | none => rfl
    | some s =>
      have hs : s.isEmpty = true := by
        simpa [truthy] using h
      simp [buildSystemPrompt, hs]

theorem prompt_resolution_witness :
    (("ZZZ" : String) ≠ "TP_ASSISTANT" ∧ ("ZZZ" : String) ≠ "PROGRAMMING_TUTOR" ∧
      ("ZZZ" : String) ≠ "DEBUG_HELPER" ∧ ("a" : String) ≠ "" ∧ ("b" : String) ≠ "" ∧
      ("c" : String) ≠ "" ∧ ("d" : String) ≠ "") ∧
    (basePromptFor "ZZZ" = TP_ASSISTANT ∧
    buildSystemPrompt "base"
      { tpSubject := none, tpObjectives := none, studentLevel := none,
        constraints := none } = "base" ∧
    buildSystemPrompt "base"
      { tpSubject := some "a", tpObjectives := some "b", studentLevel := some "c",
        constraints := some "d" } =
      "base" ++ "\n\nSujet du TP : " ++ "a" ++ "\n\nObjectifs pédagogiques : " ++ "b" ++
      "\n\nNiveau de l'étudiant : " ++ "c" ++ "\n\nContraintes particulières : " ++ "d" ∧
    (¬truthy (PromptContext.mk none none none none).tpSubject = true →
      buildSystemPrompt "base" (PromptContext.mk none none none none) =
        buildSystemPrompt "base"
          { PromptContext.mk none none none none with tpSubject := none }) ∧
    (¬truthy (PromptContext.mk none none none none).tpObjectives = true →
      buildSystemPrompt "base" (PromptContext.mk none none none none) =
        buildSystemPrompt "base"
          { PromptContext.mk none none none none with tpObjectives := none }) ∧
    (¬truthy (PromptContext.mk none none none none).studentLevel = true →
      buildSystemPrompt "base" (PromptContext.mk none none none none) =
        buildSystemPrompt "base"
          { PromptContext.mk none none none none with studentLevel := none }) ∧
    (¬truthy (PromptContext.mk none none none none).constraints = true →
      buildSystemPrompt "base" (PromptContext.mk none none none none) =
        buildSystemPrompt "base"
          { PromptContext.mk none none none none with constraints := none })) :=
  ⟨⟨by decide, by decide, by decide, by decide, by decide, by decide, by decide⟩,
    prompt_resolution "ZZZ" "base" "a" "b" "c" "d"
      (PromptContext.mk none none none none)
      (by decide) (by decide) (by decide) (by decide) (by decide) (by decide)
      (by decide)⟩

/-! ### Chat-turn lemmas -/

theorem trimMessages_getLast (l : List Message) (m : Message) :
    (trimMessages (l ++ [m])).getLast? = some m := by
  cases l with
  | nil =>
    rw [List.nil_append, trimMessages_of_le]
    · rfl
    · simp [maxHistoryLength]
  | cons x xs =>
    rw [List.cons_append, trimMessages_cons]
    have hA : (keepLast (maxHistoryLength - 1) (xs ++ [m])).getLast? = some m := by
      rw [getLast?_keepLast _ (by norm_num [maxHistoryLength]) _]
      exact List.getLast?_concat _
    have hx : (x :: keepLast (maxHistoryLength - 1) (xs ++ [m])) =
        [x] ++ keepLast (maxHistoryLength - 1) (xs ++ [m]) := rfl
    rw [hx, List.getLast?_append, hA]
    rfl

/-- With both fields present and non-empty, an existing session and a
configured service, the handler's synchronous prefix appends the user message
and suspends on the completion call. -/
theorem chatPhase1_suspends (now : Nat) (sid m : String) (store : Store V)
    (conv : Conversation V) (hsid : sid ≠ "") (hm : m ≠ "")
    (hg : mapGet store sid = some conv) :
    chatPhase1 now true (some sid) (some m) store =
      ChatPhase1Result.suspended sid
        (getMessages (addMessage now sid Role.user m store).2 sid)
        (addMessage now sid Role.user m store).2 := by
  unfold chatPhase1
  rw [show truthy (some sid) = true by
      simp [truthy, isEmpty_false_of_ne sid hsid],
    show truthy (some m) = true by
      simp [truthy, isEmpty_false_of_ne m hm]]
  simp only [Bool.not_true, Bool.or_self, Bool.false_eq_true, if_false,
    Option.getD_some]
  unfold getConversation
  rw [hg]

/-- C3.  When the completion boundary fails after the user message was
appended, the handler reports the upstream error and the user append is not
rolled back: the history ends with the user message and gains no assistant
message; a subsequent successful retry of the turn performs exactly one
assistant append (and, while the history bound is not hit, the assistant
count rises by exactly one). -/
theorem turn_failure_preserves_user (V : Type) (now1 now2 : Nat)
    (sid m : String) (store : Store V) (conv : Conversation V)
    (hsid : sid ≠ "") (hm : m ≠ "") (hg : mapGet store sid = some conv) :
    (∀ e, chatTurn now1 now2 true (some sid) (some m)
        (fun _ => CompletionResult.err e) store =
      (ChatOutcome.upstreamError e, (addMessage now1 sid Role.user m store).2)) ∧
    ∃ c1, mapGet (addMessage now1 sid Role.user m store).2 sid = some c1 ∧
      c1.messages.getLast? =
        some { role := Role.user, content := m, timestamp := now1 } ∧
      (c1.messages.filter (fun x => x.role = Role.assistant)).length ≤
        (conv.messages.filter (fun x => x.role = Role.assistant)).length ∧
      ∀ now3 now4 : Nat, ∀ m2 resp : String, m2 ≠ "" →
        chatTurn now3 now4 true (some sid) (some m2)
            (fun _ => CompletionResult.ok resp)
            (addMessage now1 sid Role.user m store).2 =
          (ChatOutcome.ok resp,
            (addMessage now4 sid Role.assistant resp
              (addMessage now3 sid Role.user m2
                (addMessage now1 sid Role.user m store).2).2).2) ∧
        (conv.messages.length + 3 ≤ maxHistoryLength →
          ∃ c2, mapGet (addMessage now4 sid Role.assistant resp
              (addMessage now3 sid Role.user m2
                (addMessage now1 sid Role.user m store).2).2).2 sid = some c2 ∧
            (c2.messages.filter (fun x => x.role = Role.assistant)).length =
              (c1.messages.filter (fun x => x.role = Role.assistant)).length + 1) := by
  have hadd1 := addMessage_present now1 sid Role.user m store conv hg
  have hget1 : mapGet (addMessage now1 sid Role.user m store).2 sid = some
      { conv with
        messages := trimMessages (conv.messages ++
          [{ role := Role.user, content := m, timestamp := now1 }])
        lastActivity := now1 } := by
    rw [hadd1]
    exact mapGet_mapSet_self _ _ _
  constructor
  · intro e
    unfold chatTurn
    rw [chatPhase1_suspends now1 sid m store conv hsid hm hg]
    rfl
  · refine ⟨_, hget1, ?_, ?_, ?_⟩
    · exact trimMessages_getLast _ _
    · have hsub : List.Sublist
          (trimMessages (conv.messages ++
            [{ role := Role.user, content := m, timestamp := now1 }]))
          (conv.messages ++
            [{ role := Role.user, content := m, timestamp := now1 }]) :=
        trimMessages_sublist _
      have hle := (hsub.filter (fun x => decide (x.role = Role.assistant))).length_le
      simpa using hle
    · intro now3 now4 m2 resp hm2
      have hadd2 := addMessage_present now3 sid Role.user m2 _ _ hget1
      have hget2 : mapGet (addMessage now3 sid Role.user m2
          (addMessage now1 sid Role.user m store).2).2 sid = some
          { conv with
            messages := trimMessages (trimMessages (conv.messages ++
              [{ role := Role.user, content := m, timestamp := now1 }]) ++
              [{ role := Role.user, content := m2, timestamp := now3 }])
            lastActivity := now3 } := by
        rw [hadd2]
        exact mapGet_mapSet_self _ _ _
      constructor
      · unfold chatTurn
        rw [chatPhase1_suspends now3 sid m2 _ _ hsid hm2 hget1]
        rfl
      · intro hlen
        have hadd3 := addMessage_present now4 sid Role.assistant resp _ _ hget2
        have hget3 : mapGet (addMessage now4 sid Role.assistant resp
            (addMessage now3 sid Role.user m2
              (addMessage now1 sid Role.user m store).2).2).2 sid = some
            { conv with
              messages := trimMessages (trimMessages (trimMessages (conv.messages ++
                [{ role := Role.user, content := m, timestamp := now1 }]) ++
                [{ role := Role.user, content := m2, timestamp := now3 }]) ++
                [{ role := Role.assistant, content := resp, timestamp := now4 }])
              lastActivity := now4 } := by
          rw [hadd3]
          exact mapGet_mapSet_self _ _ _
        have ht1 : trimMessages (conv.messages ++
            [{ role := Role.user, content := m, timestamp := now1 }]) =
            conv.messages ++
            [{ role := Role.user, content := m, timestamp := now1 }] := by
          refine trimMessages_of_le _ ?_
          rw [List.length_append, List.length_singleton]
          omega
        have ht2 : trimMessages ((conv.messages ++
            [{ role := Role.user, content := m, timestamp := now1 }]) ++
            [{ role := Role.user, content := m2, timestamp := now3 }]) =
            (conv.messages ++
            [{ role := Role.user, content := m, timestamp := now1 }]) ++
            [{ role := Role.user, content := m2, timestamp := now3 }] := by
          refine trimMessages_of_le _ ?_
          rw [List.length_append, List.length_append, List.length_singleton,
            List.length_singleton]
          omega
        have ht3 : trimMessages (((conv.messages ++
            [{ role := Role.user, content := m, timestamp := now1 }]) ++
            [{ role := Role.user, content := m2, timestamp := now3 }]) ++
            [{ role := Role.assistant, content := resp, timestamp := now4 }]) =
            ((conv.messages ++
            [{ role := Role.user, content := m, timestamp := now1 }]) ++
            [{ role := Role.user, content := m2, timestamp := now3 }]) ++
            [{ role := Role.assistant, content := resp, timestamp := now4 }] := by
          refine trimMessages_of_le _ ?_
          rw [List.length_append, List.length_append, List.length_append,
            List.length_singleton, List.length_singleton, List.length_singleton]
          omega
        refine ⟨_, hget3, ?_⟩
        simp only [ht1, ht2, ht3, List.filter_append]
        simp
theorem turn_failure_preserves_user_witness :
    (("s" : String) ≠ "" ∧ ("hi" : String) ≠ "" ∧
      mapGet [("s", demoConv)] "s" = some demoConv) ∧
    chatTurn 1 2 true (some "s") (some "hi")
        (fun _ => CompletionResult.err "boom") [("s", demoConv)] =
      (ChatOutcome.upstreamError "boom",
        (addMessage 1 "s" Role.user "hi" [("s", demoConv)]).2) :=
  ⟨⟨by decide, by decide, by decide⟩,
    (turn_failure_preserves_user Int 1 2 "s" "hi" [("s", demoConv)] demoConv
      (by decide) (by decide) (by decide)).1 "boom"⟩

end BotTp
